import Mathlib

/-!
Verification of the sandboxed live-preview engine of AIONEX-EDITOR
(src/components/AgentsPanel.tsx) over a shallow embedding.

Conventions of the embedding:
* The in-memory FileTable (`fileSystem : Record<string, string>`) is an
  association list `List (String × String)` with unique keys; `fileSystem[path]`
  is association-list lookup.
* JavaScript string primitives used by the code (`split`, `join`, `slice(-1)`,
  `startsWith`, `toLowerCase`) are re-implemented over `String.data` so that
  they evaluate by kernel reduction; each mirrors the JS semantics for the
  single-character separators actually used by the code.
* The DOM tree produced by `DOMParser.parseFromString` is modelled by the
  inductive `HNode` / `HtmlDoc`; parsing and `innerHTML` serialization are the
  identity on this representation, and `document.body.innerHTML` yields the
  body children only (an `HtmlDoc` with empty head), exactly as the code's
  `htmlDoc.body.innerHTML` does.
* Asynchronous message passing is modelled by explicit event values processed
  by pure step functions returning the outbound messages / settlements.
-/

/-- JS `s.split(sep)` for a one-character separator: splits on every
occurrence, keeping empty fragments, and yields `[""]` on the empty string. -/
def splitChar (sep : Char) (s : String) : List String :=
  (s.data.foldr (fun c acc =>
      match acc with
      | cur :: rest => if c = sep then [] :: (cur :: rest) else (c :: cur) :: rest
      | [] => [[c]]) [[]]).map (fun l => ⟨l⟩)

/-- JS `parts.join(sep)` for a one-character separator. -/
def joinChar (sep : Char) : List String → String
  | [] => ""
  | p :: ps => ps.foldl (fun acc q => acc ++ sep.toString ++ q) p

/-- JS `base.slice(-1) === '/'`: whether the last character is a slash
(`false` on the empty string, since `"".slice(-1)` is `""`). -/
def lastCharIsSlash (s : String) : Bool :=
  match s.data.getLast? with
  | some c => c == '/'
  | none => false

/-- Helper for `startsWithJS`. -/
def isPrefixList : List Char → List Char → Bool
  | [], _ => true
  | _ :: _, [] => false
  | c :: cs, d :: ds => c == d && isPrefixList cs ds

/-- JS `s.startsWith(p)`. -/
def startsWithJS (s p : String) : Bool := isPrefixList p.data s.data

/-- JS `s.toLowerCase()` (ASCII, sufficient for file extensions). -/
def toLowerJS (s : String) : String := ⟨s.data.map Char.toLower⟩

/-- The canonical path→content map (`fileSystem`), keys unique. -/
abbrev FileTable := List (String × String)

/-- JS `fileSystem[path]`: `some content` when the key is present
(even with empty-string content), `none` otherwise (`undefined`). -/
def lookupFT (fileSystem : FileTable) (path : String) : Option String :=
  fileSystem.lookup path

/-- `resolvePath` from AgentsPanel.tsx lines 47–63: split the base on `/`;
if the base does not end in `/`, pop the last segment; then fold the segments
of `relative`: `.` is a no-op, `..` pops (popping an empty stack leaves it
empty, as JS `Array.pop` does), anything else is pushed; join with `/`. -/
def resolvePath (base relative : String) : String :=
  let stack := splitChar '/' base
  let stack := if !lastCharIsSlash base then stack.dropLast else stack
  let parts := splitChar '/' relative
  let stack := parts.foldl (fun st p =>
    if p = "." then st
    else if p = ".." then st.dropLast
    else st ++ [p]) stack
  joinChar '/' stack

/-- `getMimeType` from AgentsPanel.tsx lines 65–80:
`path.split('.').pop()?.toLowerCase()` matched against the extension table. -/
def getMimeType (path : String) : String :=
  let extension := toLowerJS ((splitChar '.' path).getLastD "")
  match extension with
  | "html" => "text/html"
  | "css" => "text/css"
  | "js" => "application/javascript"
  | "json" => "application/json"
  | "png" => "image/png"
  | "jpg" => "image/jpeg"
  | "jpeg" => "image/jpeg"
  | "gif" => "image/gif"
  | "svg" => "image/svg+xml"
  | "md" => "text/markdown"
  | _ => "application/octet-stream"

/-- The structural `FETCH_RESPONSE` message
`{ type: 'FETCH_RESPONSE', requestId, content, status, headers }`. -/
structure FetchResponseMsg where
  requestId : String
  content : String
  status : Nat
  headers : List (String × String)
deriving DecidableEq

/-- Payload of a message arriving at the host (`event.data`): either a
structural `FETCH_REQUEST` or anything else (unrelated page traffic). -/
inductive HostInbound where
  | fetchRequest (path : String) (requestId : String)
  | other
deriving DecidableEq

/-- A message event seen by the host listener; `source` abstracts
`event.source` as a window identity. -/
structure HostEvent where
  source : Nat
  data : HostInbound
deriving DecidableEq

/-- `handleIframeMessage` from AgentsPanel.tsx lines 265–295. `ownWindow` is
`iframe.contentWindow` (`none` when `iframeRef.current` is null). The handler
returns the `FETCH_RESPONSE` posted back into the iframe, or `none` when it
ignores the event; it mutates no state in either case. -/
def handleIframeMessage (ownWindow : Option Nat) (fileSystem : FileTable)
    (event : HostEvent) : Option FetchResponseMsg :=
  match ownWindow with
  | none => none
  | some w =>
    if event.source ≠ w then none
    else
      match event.data with
      | .fetchRequest path requestId =>
        match lookupFT fileSystem path with
        | some content =>
          some ⟨requestId, content, 200, [("Content-Type", getMimeType path)]⟩
        | none =>
          some ⟨requestId, "File not found: " ++ path, 404,
                [("Content-Type", "text/plain")]⟩
      | .other => none

/-- Payload of a message arriving inside the sandbox shim. -/
inductive ShimInbound where
  | fetchResponse (m : FetchResponseMsg)
  | other
deriving DecidableEq

/-- A message event seen by the shim's listener; `fromParent` abstracts the
check `event.source !== window.parent`. -/
structure ShimEvent where
  fromParent : Bool
  data : ShimInbound
deriving DecidableEq

/-- The `pendingRequests` map of the injected shim: request id →
continuation token (abstracting the `{ resolve, reject }` record). -/
abbrev PendingMap := List (String × Nat)

/-- How a pending continuation is settled: `resolved` abstracts
`resolve(new Response(content, { status, headers }))`, `rejected status`
abstracts `reject(new Error('Fetch failed with status: ' + status))`. -/
inductive Settlement where
  | resolved (content : String) (status : Nat) (headers : List (String × String))
  | rejected (status : Nat)
deriving DecidableEq

/-- The shim's message listener from the injected `fetchOverrideScript`
(AgentsPanel.tsx lines 194–207): ignore events not from the parent; on a
`FETCH_RESPONSE` whose id is pending, delete the entry (modelled as filtering
the unique binding out of the map) and settle — resolve when
`200 <= status < 300`, reject otherwise; all other events change nothing. -/
def shimOnMessage (pending : PendingMap) (ev : ShimEvent) :
    PendingMap × Option (String × Settlement) :=
  if !ev.fromParent then (pending, none)
  else
    match ev.data with
    | .other => (pending, none)
    | .fetchResponse m =>
      match pending.lookup m.requestId with
      | none => (pending, none)
      | some _ =>
        let remaining := pending.filter (fun e => e.1 != m.requestId)
        if 200 ≤ m.status ∧ m.status < 300 then
          (remaining, some (m.requestId, .resolved m.content m.status m.headers))
        else
          (remaining, some (m.requestId, .rejected m.status))

/-- Process a sequence of inbound shim events, collecting the settlements
they produce (each tagged with its request id). -/
def shimRun (pending : PendingMap) : List ShimEvent → List (String × Settlement)
  | [] => []
  | ev :: evs =>
    let step := shimOnMessage pending ev
    step.2.toList ++ shimRun step.1 evs

/-- Whether a request id currently has a pending continuation. -/
def hasPending (pending : PendingMap) (rid : String) : Bool :=
  pending.any (fun e => e.1 == rid)

/-- Outcome of the builder's per-attribute asset pass. -/
inductive RewriteResult where
  | keep
  | rewritten (assetPath : String)
deriving DecidableEq

/-- Per-attribute record: which FileTable key was consulted (`none` when the
reference was skipped before any lookup) and whether the attribute was
rewritten to an ephemeral handle. -/
structure AssetOutcome where
  lookedUp : Option String
  result : RewriteResult
deriving DecidableEq

/-- The per-attribute body of the asset loop in `generatePreview`
(AgentsPanel.tsx lines 233–254): skip when the attribute value is absent/empty
or starts with `http` or `data:`; otherwise take it verbatim when it starts
with `/`, else resolve it against the index path; look the resulting key up in
the FileTable; rewrite to a fresh object URL only on a hit with truthy
(non-empty) content, and leave the attribute untouched otherwise
(`console.warn`, non-fatal). -/
def processAsset (fileSystem : FileTable) (indexPath : String)
    (originalPath : String) : AssetOutcome :=
  if originalPath == "" || startsWithJS originalPath "http"
      || startsWithJS originalPath "data:" then
    ⟨none, .keep⟩
  else
    let assetPath :=
      if startsWithJS originalPath "/" then originalPath
      else resolvePath indexPath originalPath
    match lookupFT fileSystem assetPath with
    | some assetContent =>
      if assetContent ≠ "" then ⟨some assetPath, .rewritten assetPath⟩
      else ⟨some assetPath, .keep⟩
    | none => ⟨some assetPath, .keep⟩

/-- The string form of an ephemeral handle (`URL.createObjectURL(blob)`),
identified by its allocation number. -/
def blobUrl (handle : Nat) : String := "blob:" ++ toString handle

/-- Result of the asset pass: the final attribute values in document order,
the rewrites performed as (FileTable key, handle) pairs, and the next fresh
handle number. -/
structure RewriteState where
  attrs : List String
  rewrites : List (String × Nat)
  next : Nat
deriving DecidableEq

/-- The asset loop of `generatePreview` over the document's asset-bearing
attribute values (`link[href], script[src], img[src], source[srcset]` in
document order): each rewritten reference allocates one fresh object URL;
kept references appear byte-identical in the output. -/
def rewriteAssets (fileSystem : FileTable) (indexPath : String)
    (refs : List String) (next : Nat) : RewriteState :=
  refs.foldl (fun st ref =>
    match (processAsset fileSystem indexPath ref).result with
    | .rewritten assetPath =>
      { attrs := st.attrs ++ [blobUrl st.next],
        rewrites := st.rewrites ++ [(assetPath, st.next)],
        next := st.next + 1 }
    | .keep => { st with attrs := st.attrs ++ [ref] }) ⟨[], [], next⟩

/-- The document handed to the iframe (`srcDoc`): the two placeholder
branches carry their literal text; a built document is abstracted by its
final asset-attribute values. -/
inductive PreviewDoc where
  | noRootSelected
  | missingIndex (text : String)
  | document (attrs : List String)
deriving DecidableEq

/-- Result of one run of the builder. -/
structure BuildResult where
  doc : PreviewDoc
  rewrites : List (String × Nat)
  next : Nat
deriving DecidableEq

/-- `generatePreview` from AgentsPanel.tsx lines 171–261. `previewRoot` is the
nullable preview root (JS falsiness makes the empty string behave like null);
`assetRefs` abstracts the platform step "parse the markup and read the
asset-bearing attribute values in document order" (`DOMParser` +
`querySelectorAll`); `next` is the next fresh object-URL number. When
`{previewRoot}index.html` is absent the builder returns the literal diagnostic
placeholder without running the asset pass; it is a total function (the
`try/catch` converts parse failures into a placeholder, never a throw). -/
def generatePreview (fileSystem : FileTable) (previewRoot : Option String)
    (assetRefs : String → List String) (next : Nat) : BuildResult :=
  match previewRoot with
  | none => ⟨.noRootSelected, [], next⟩
  | some root =>
    if root = "" then ⟨.noRootSelected, [], next⟩
    else
      let indexPath := root ++ "index.html"
      match lookupFT fileSystem indexPath with
      | none =>
        ⟨.missingIndex ("<html><body>No index.html found in preview root: "
            ++ root
            ++ ". Select a folder with an index.html file to preview, or create an index.html.</body></html>"),
         [], next⟩
      | some indexContent =>
        let st := rewriteAssets fileSystem indexPath (assetRefs indexContent) next
        ⟨.document st.attrs, st.rewrites, st.next⟩

/-- Host-side lifecycle state across regenerations: `live` is every object
URL created so far and not revoked, `current` the handles referenced by the
installed generation, `next` the allocation counter. -/
structure HostState where
  live : List Nat
  next : Nat
  current : List Nat
deriving DecidableEq

/-- One regeneration as the code performs it: run `generatePreview` (each
rewrite calls `URL.createObjectURL`) and install the new document via
`setSrcDoc`. No call to `URL.revokeObjectURL` exists anywhere on this path,
so `live` only ever grows. -/
def regenerate (fileSystem : FileTable) (previewRoot : Option String)
    (assetRefs : String → List String) (st : HostState) : HostState :=
  let r := generatePreview fileSystem previewRoot assetRefs st.next
  { live := st.live ++ r.rewrites.map Prod.snd,
    next := r.next,
    current := r.rewrites.map Prod.snd }

/-- The inline-style properties the formatting actions touch; the empty
string denotes an unset property, as a CSSStyleDeclaration reports it. -/
structure ElemStyle where
  textAlign : String
  fontWeight : String
  fontStyle : String
deriving DecidableEq

/-- A DOM node: text, or an element with tag name, optional
`data-editable-id` attribute, inline style attribute, and children.
`style = none` means the element carries no `style` attribute at all;
`style = some st` means the attribute is present with the tracked properties
of `st` (possibly all unset, which serializes as `style=""`). The DOM
distinguishes these two states: assigning through `el.style` creates the
attribute, and clearing a property afterwards leaves the (then empty)
attribute in place, so a `style=""` residue remains in `innerHTML`. -/
inductive HNode where
  | text (s : String)
  | elem (tag : String) (editableId : Option String) (style : Option ElemStyle)
      (children : List HNode)

/-- A parsed document: head children and body children. The FileTable's root
document entry is represented by its parse; storing `body.innerHTML` and
re-parsing later yields an `HtmlDoc` with empty head and the same body. -/
structure HtmlDoc where
  headNodes : List HNode
  bodyNodes : List HNode

mutual

/-- `querySelector('[data-editable-id="id"]')` followed by an in-place
mutation `f` of the found element: returns the tree with the first matching
element (document order) replaced by `f` of it, or `none` when no element
matches. -/
def updFirst (id : String) (f : HNode → HNode) : HNode → Option HNode
  | .text _ => none
  | .elem tag eid style children =>
    if eid = some id then some (f (.elem tag eid style children))
    else
      match updFirstList id f children with
      | some cs => some (.elem tag eid style cs)
      | none => none

/-- List version of `updFirst`, in document order. -/
def updFirstList (id : String) (f : HNode → HNode) :
    List HNode → Option (List HNode)
  | [] => none
  | n :: ns =>
    match updFirst id f n with
    | some m => some (m :: ns)
    | none =>
      match updFirstList id f ns with
      | some ms => some (n :: ms)
      | none => none

end

mutual

/-- Pure `querySelector('[data-editable-id="id"]')`: the first element in
document order bearing the id, without mutation. -/
def findFirst (id : String) : HNode → Option HNode
  | .text _ => none
  | .elem tag eid style children =>
    if eid = some id then some (.elem tag eid style children)
    else findFirstList id children

/-- List version of `findFirst`, in document order. -/
def findFirstList (id : String) : List HNode → Option HNode
  | [] => none
  | n :: ns =>
    match findFirst id n with
    | some el => some el
    | none => findFirstList id ns

end

/-- Whether the node itself (not a descendant) bears the editable id. -/
def isElemMatch (id : String) : HNode → Bool
  | .text _ => false
  | .elem _ eid _ _ => eid == some id

/-- The style attributes of a list's top-level nodes (`none` for text nodes),
an observable separating documents that differ in attribute presence. -/
def topStyles : List HNode → List (Option ElemStyle)
  | [] => []
  | HNode.text _ :: ns => none :: topStyles ns
  | HNode.elem _ _ style _ :: ns => style :: topStyles ns

/-- `el.innerHTML = newContent`: replace an element's children. -/
def setInner (newContent : List HNode) : HNode → HNode
  | .text s => .text s
  | .elem tag eid style _ => .elem tag eid style newContent

/-- `updateElementInCode` from AgentsPanel.tsx lines 685–698: re-parse the
root entry, `querySelector` the element bearing the id (searching the whole
document, head before body), apply the mutation, and store
`htmlDoc.body.innerHTML` — the body children only. When no element matches,
the entry is returned unchanged (`return prev`). -/
def updateElementInCode (stored : HtmlDoc) (id : String) (f : HNode → HNode) :
    HtmlDoc :=
  match updFirstList id f stored.headNodes with
  | some _ => ⟨[], stored.bodyNodes⟩
  | none =>
    match updFirstList id f stored.bodyNodes with
    | some bodyNodes => ⟨[], bodyNodes⟩
    | none => stored

/-- `updateCodeFromDOM` from AgentsPanel.tsx lines 624–637: identical
parse–locate–mutate–store structure, with the mutation
`el.innerHTML = newContent`. -/
def updateCodeFromDOM (stored : HtmlDoc) (id : String)
    (newContent : List HNode) : HtmlDoc :=
  updateElementInCode stored id (setInner newContent)

/-- `el.style.textAlign = alignment`: reading `el.style` on an element
without a `style` attribute sees all properties unset; the assignment
materializes the attribute. -/
def setAlign (alignment : String) : HNode → HNode
  | .text s => .text s
  | .elem tag eid style children =>
    let st := style.getD ⟨"", "", ""⟩
    .elem tag eid (some { st with textAlign := alignment }) children

/-- The mutation of `handleStyle` (AgentsPanel.tsx lines 703–708): toggle
`fontWeight` between `''` and `'bold'` when the action is `bold`, toggle
`fontStyle` between `''` and `'italic'` when it is `italic`. Reading
`el.style.fontWeight` without a `style` attribute yields `''`; the assignment
creates the attribute, and clearing the property later leaves it present
(and possibly empty) — it is never removed. -/
def applyStyleToggle (styleAction : String) : HNode → HNode
  | .text s => .text s
  | .elem tag eid style children =>
    let st := style.getD ⟨"", "", ""⟩
    if styleAction = "bold" then
      .elem tag eid
        (some { st with fontWeight := if st.fontWeight = "bold" then "" else "bold" })
        children
    else if styleAction = "italic" then
      .elem tag eid
        (some { st with fontStyle := if st.fontStyle = "italic" then "" else "italic" })
        children
    else
      .elem tag eid style children

/-- `handleAlign` from AgentsPanel.tsx lines 700–702: a no-op unless an
element is selected. -/
def handleAlign (stored : HtmlDoc) (selected : Option String)
    (alignment : String) : HtmlDoc :=
  match selected with
  | some id => updateElementInCode stored id (setAlign alignment)
  | none => stored

/-- `handleStyle` from AgentsPanel.tsx lines 703–708. -/
def handleStyle (stored : HtmlDoc) (selected : Option String)
    (styleAction : String) : HtmlDoc :=
  match selected with
  | some id => updateElementInCode stored id (applyStyleToggle styleAction)
  | none => stored

/-! ## Theorems -/

/-- C2 counterexample: the third spec equation fails on the code. JS
`"/a/".split('/')` is `["", "a", ""]`; the base ends in `/` so nothing is
popped, and pushing `x.css` yields `["", "a", "", "x.css"]`, which joins to
`"/a//x.css"`, not `"/a/x.css"`. -/
theorem resolvePath_trailing_slash_base_counterexample :
    resolvePath "/a/" "x.css" = "/a//x.css" ∧
    resolvePath "/a/" "x.css" ≠ "/a/x.css" := by decide

/-- C2 amended: the first two spec equations hold; for a base ending in `/`
the trailing empty split segment is preserved, so the third equation yields
`"/a//x.css"` instead of `"/a/x.css"`. -/
theorem resolvePath_spec_equations_amended :
    resolvePath "/a/b/index.html" "./x.css" = "/a/b/x.css" ∧
    resolvePath "/a/b/index.html" "../x.css" = "/a/x.css" ∧
    resolvePath "/a/" "x.css" = "/a//x.css" := by decide

/-- C10: `resolvePath` does not always return a root-absolute path. With base
`"/index.html"` the two `..` segments pop the leading empty segment of the
split base, and the result `"x.css"` does not begin with `/` — a key shape an
absolute-path FileTable never contains. -/
theorem resolvePath_escapes_root :
    resolvePath "/index.html" "../../x.css" = "x.css" ∧
    startsWithJS "/index.html" "/" = true ∧
    startsWithJS (resolvePath "/index.html" "../../x.css") "/" = false := by decide

/-- C3 counterexample: a protocol-relative reference (`//…`) is not skipped by
the builder's external test (`startsWith('http') || startsWith('data:')`); it
starts with `/`, so it is looked up in the FileTable as-is, and on a hit the
attribute is rewritten to an ephemeral handle — not returned byte-identical. -/
theorem protocol_relative_ref_rewritten_counterexample :
    startsWithJS "//cdn.example.com/lib.js" "//" = true ∧
    processAsset [("//cdn.example.com/lib.js", "x")] "/index.html"
        "//cdn.example.com/lib.js" =
      ⟨some "//cdn.example.com/lib.js", .rewritten "//cdn.example.com/lib.js"⟩ ∧
    (rewriteAssets [("//cdn.example.com/lib.js", "x")] "/index.html"
        ["//cdn.example.com/lib.js"] 0).attrs = ["blob:0"] ∧
    ("blob:0" : String) ≠ "//cdn.example.com/lib.js" := by decide

/-- C3 amended: a reference beginning with `http` or `data:` is skipped before
any FileTable lookup, is never rewritten, and appears byte-identical in the
output attribute list. (References beginning with `//` are instead treated as
root-absolute FileTable keys.) -/
theorem external_http_data_refs_kept :
    ∀ (fileSystem : FileTable) (indexPath p : String) (n : Nat),
      startsWithJS p "http" = true ∨ startsWithJS p "data:" = true →
      processAsset fileSystem indexPath p = ⟨none, .keep⟩ ∧
      rewriteAssets fileSystem indexPath [p] n = ⟨[p], [], n⟩ := by
  intro fs ip p n h
  have hp : (p = "" ∨ startsWithJS p "http" = true) ∨ startsWithJS p "data:" = true := by
    rcases h with h | h
    · exact Or.inl (Or.inr h)
    · exact Or.inr h
  constructor
  · simp [processAsset, hp]
  · simp [rewriteAssets, processAsset, hp]

/-- C3 amended, witness at a concrete input. -/
theorem external_http_data_refs_kept_witness :
    startsWithJS "https://cdn.x/y.js" "http" = true ∧
    processAsset [] "/index.html" "https://cdn.x/y.js" = ⟨none, .keep⟩ ∧
    rewriteAssets [] "/index.html" ["https://cdn.x/y.js"] 0 =
      ⟨["https://cdn.x/y.js"], [], 0⟩ := by
  have h := external_http_data_refs_kept [] "/index.html" "https://cdn.x/y.js" 0
    (Or.inl (by decide))
  exact ⟨by decide, h.1, h.2⟩

/-- C4: when `{previewRoot}index.html` is absent the builder returns the
literal diagnostic placeholder naming the preview root and `index.html`,
performs zero asset rewrites, and allocates no ephemeral handle (the
allocation counter is returned unchanged); it returns rather than throwing. -/
theorem missing_index_placeholder_no_rewrites :
    ∀ (fileSystem : FileTable) (root : String)
      (assetRefs : String → List String) (n : Nat),
      root ≠ "" →
      lookupFT fileSystem (root ++ "index.html") = none →
      generatePreview fileSystem (some root) assetRefs n =
        ⟨.missingIndex ("<html><body>No index.html found in preview root: "
            ++ root
            ++ ". Select a folder with an index.html file to preview, or create an index.html.</body></html>"),
         [], n⟩ := by
  intro fs root refs n hroot hmiss
  simp [generatePreview, hroot, hmiss]

/-- C4, witness at a concrete input. -/
theorem missing_index_placeholder_no_rewrites_witness :
    ("/app/" : String) ≠ "" ∧
    lookupFT [("/other.txt", "x")] ("/app/" ++ "index.html") = none ∧
    generatePreview [("/other.txt", "x")] (some "/app/") (fun _ => ["./style.css"]) 0 =
      ⟨.missingIndex "<html><body>No index.html found in preview root: /app/. Select a folder with an index.html file to preview, or create an index.html.</body></html>",
       [], 0⟩ := by
  refine ⟨by decide, by decide, ?_⟩
  have h := missing_index_placeholder_no_rewrites [("/other.txt", "x")] "/app/"
    (fun _ => ["./style.css"]) 0 (by decide) (by decide)
  exact h

/-- C6: the host responder ignores every inbound message whose source is not
exactly the sandbox window it owns (and every message while it owns none):
no `FETCH_RESPONSE` is posted, and the handler performs no writes at all. -/
theorem host_ignores_foreign_sources :
    (∀ (w : Nat) (fileSystem : FileTable) (event : HostEvent),
        event.source ≠ w → handleIframeMessage (some w) fileSystem event = none) ∧
    (∀ (fileSystem : FileTable) (event : HostEvent),
        handleIframeMessage none fileSystem event = none) := by
  constructor
  · intro w fs ev h
    simp [handleIframeMessage, h]
  · intro fs ev
    rfl

/-- C6, witness at a concrete input. -/
theorem host_ignores_foreign_sources_witness :
    (1 : Nat) ≠ 0 ∧
    handleIframeMessage (some 0) [("/a.html", "x")]
      ⟨1, .fetchRequest "/a.html" "r"⟩ = none :=
  ⟨by decide,
   host_ignores_foreign_sources.1 0 [("/a.html", "x")]
     ⟨1, .fetchRequest "/a.html" "r"⟩ (by decide)⟩

/-- C1: on an accepted `FETCH_REQUEST`, the host replies 200 with content
identical to the FileTable entry and a Content-Type inferred from the path
when the path is a key, and 404 with a plain-text body otherwise; feeding
that reply to the shim settles the pending continuation accordingly
(resolved for 200, rejected naming 404). -/
theorem host_fetch_request_response :
    ∀ (w : Nat) (fileSystem : FileTable) (path rid : String)
      (pending : PendingMap) (k : Nat),
      (∀ content, lookupFT fileSystem path = some content →
        handleIframeMessage (some w) fileSystem ⟨w, .fetchRequest path rid⟩ =
          some ⟨rid, content, 200, [("Content-Type", getMimeType path)]⟩ ∧
        (pending.lookup rid = some k →
          (shimOnMessage pending ⟨true, .fetchResponse
              ⟨rid, content, 200, [("Content-Type", getMimeType path)]⟩⟩).2 =
            some (rid, .resolved content 200 [("Content-Type", getMimeType path)]))) ∧
      (lookupFT fileSystem path = none →
        handleIframeMessage (some w) fileSystem ⟨w, .fetchRequest path rid⟩ =
          some ⟨rid, "File not found: " ++ path, 404, [("Content-Type", "text/plain")]⟩ ∧
        (pending.lookup rid = some k →
          (shimOnMessage pending ⟨true, .fetchResponse
              ⟨rid, "File not found: " ++ path, 404, [("Content-Type", "text/plain")]⟩⟩).2 =
            some (rid, .rejected 404))) := by
  intro w fs path rid pending k
  constructor
  · intro content hc
    constructor
    · simp [handleIframeMessage, hc]
    · intro hp
      simp [shimOnMessage, hp]
  · intro hc
    constructor
    · simp [handleIframeMessage, hc]
    · intro hp
      simp [shimOnMessage, hp]

/-- C1, witness at concrete inputs covering both the hit and the miss case. -/
theorem host_fetch_request_response_witness :
    handleIframeMessage (some 0) [("/app.js", "x")] ⟨0, .fetchRequest "/app.js" "r1"⟩ =
      some ⟨"r1", "x", 200, [("Content-Type", "application/javascript")]⟩ ∧
    (shimOnMessage [("r1", 3)] ⟨true, .fetchResponse
        ⟨"r1", "x", 200, [("Content-Type", "application/javascript")]⟩⟩).2 =
      some ("r1", .resolved "x" 200 [("Content-Type", "application/javascript")]) ∧
    handleIframeMessage (some 0) [("/app.js", "x")] ⟨0, .fetchRequest "/nope.txt" "r2"⟩ =
      some ⟨"r2", "File not found: /nope.txt", 404, [("Content-Type", "text/plain")]⟩ ∧
    (shimOnMessage [("r2", 3)] ⟨true, .fetchResponse
        ⟨"r2", "File not found: /nope.txt", 404, [("Content-Type", "text/plain")]⟩⟩).2 =
      some ("r2", .rejected 404) := by
  have h1 := host_fetch_request_response 0 [("/app.js", "x")] "/app.js" "r1" [("r1", 3)] 3
  have h2 := host_fetch_request_response 0 [("/app.js", "x")] "/nope.txt" "r2" [("r2", 3)] 3
  have hm : getMimeType "/app.js" = "application/javascript" := by decide
  refine ⟨?_, ?_, ?_, ?_⟩
  · have h := (h1.1 "x" rfl).1
    rwa [hm] at h
  · have h := (h1.1 "x" rfl).2 rfl
    rwa [hm] at h
  · exact (h2.2 rfl).1
  · exact (h2.2 rfl).2 rfl

/-- C8: the code never calls `URL.revokeObjectURL` on an asset handle, so after
two consecutive regenerations over a FileTable with one rewritable asset, the
handle created for the first generation (number 0) is still live although the
installed generation references only handle 1 — earlier generations' handles
remain reachable, contradicting the claim. -/
theorem ephemeral_handles_leak_across_generations :
    regenerate [("/index.html", "doc"), ("/style.css", "css")] (some "/")
        (fun _ => ["./style.css"]) ⟨[], 0, []⟩ = ⟨[0], 1, [0]⟩ ∧
    regenerate [("/index.html", "doc"), ("/style.css", "css")] (some "/")
        (fun _ => ["./style.css"])
        (regenerate [("/index.html", "doc"), ("/style.css", "css")] (some "/")
          (fun _ => ["./style.css"]) ⟨[], 0, []⟩) = ⟨[0, 1], 2, [1]⟩ ∧
    ([0, 1] : List Nat) ≠ [1] := by decide

/-- Unfolding lemma for one step of `shimRun`. -/
theorem shimRun_cons (pending : PendingMap) (ev : ShimEvent) (evs : List ShimEvent) :
    shimRun pending (ev :: evs) =
      (shimOnMessage pending ev).2.toList ++ shimRun (shimOnMessage pending ev).1 evs := rfl

/-- A request id with a binding in the map counts as pending. -/
theorem hasPending_of_lookup (pending : PendingMap) (rid : String) (k : Nat)
    (h : pending.lookup rid = some k) : hasPending pending rid = true := by
  induction pending with
  | nil => simp [List.lookup] at h
  | cons e t ih =>
    obtain ⟨a, b⟩ := e
    by_cases hab : rid = a
    · subst hab
      simp [hasPending]
    · have hb : (rid == a) = false := by simpa using hab
      rw [List.lookup, hb] at h
      have ht := ih h
      simp only [hasPending, List.any_cons] at ht ⊢
      rw [ht]
      simp

/-- Filtering never introduces a pending id. -/
theorem hasPending_filter_false (pending : PendingMap) (rid : String)
    (p : String × Nat → Bool) (h : hasPending pending rid = false) :
    hasPending (pending.filter p) rid = false := by
  simp only [hasPending, List.any_eq_false] at h ⊢
  intro e he
  exact h e (List.mem_of_mem_filter he)

/-- Deleting a request id removes every trace of it from the map. -/
theorem hasPending_filter_self (pending : PendingMap) (rid : String) :
    hasPending (pending.filter (fun e => e.1 != rid)) rid = false := by
  simp only [hasPending, List.any_eq_false, List.mem_filter, bne_iff_ne]
  intro e he
  simpa using he.2

/-- On a parent `FETCH_RESPONSE` whose id is pending: the entry is deleted and
the continuation settled, resolved or rejected according to the status. -/
theorem shimOnMessage_hit (pending : PendingMap) (m : FetchResponseMsg) (k : Nat)
    (hl : pending.lookup m.requestId = some k) :
    shimOnMessage pending ⟨true, .fetchResponse m⟩ =
      (pending.filter (fun e => e.1 != m.requestId),
       some (m.requestId,
         if 200 ≤ m.status ∧ m.status < 300 then
           .resolved m.content m.status m.headers
         else .rejected m.status)) := by
  by_cases hs : 200 ≤ m.status ∧ m.status < 300 <;> simp [shimOnMessage, hl, hs]

/-- A settlement emitted by `shimOnMessage` names an id that was pending, and
the resulting map is the old map with that id deleted. -/
theorem shim_settle_characterize (pending : PendingMap) (ev : ShimEvent)
    (rid : String) (s : Settlement)
    (h : (shimOnMessage pending ev).2 = some (rid, s)) :
    hasPending pending rid = true ∧
    (shimOnMessage pending ev).1 = pending.filter (fun e => e.1 != rid) := by
  obtain ⟨fp, data⟩ := ev
  cases fp with
  | false => simp [shimOnMessage] at h
  | true =>
    cases data with
    | other => simp [shimOnMessage] at h
    | fetchResponse m =>
      rcases hl : pending.lookup m.requestId with _ | k
      · simp [shimOnMessage, hl] at h
      · rw [shimOnMessage_hit pending m k hl] at h
        simp only [Option.some.injEq, Prod.mk.injEq] at h
        obtain ⟨h1, _⟩ := h
        subst h1
        rw [shimOnMessage_hit pending m k hl]
        exact ⟨hasPending_of_lookup _ _ _ hl, rfl⟩

/-- Processing a message never adds a pending id. -/
theorem shim_step_preserves_absent (pending : PendingMap) (ev : ShimEvent)
    (rid : String) (h : hasPending pending rid = false) :
    hasPending (shimOnMessage pending ev).1 rid = false := by
  obtain ⟨fp, data⟩ := ev
  cases fp with
  | false => simpa [shimOnMessage] using h
  | true =>
    cases data with
    | other => simpa [shimOnMessage] using h
    | fetchResponse m =>
      rcases hl : pending.lookup m.requestId with _ | k
      · simpa [shimOnMessage, hl] using h
      · rw [shimOnMessage_hit pending m k hl]
        exact hasPending_filter_false _ _ _ h

/-- An id with no pending continuation is never settled by any later events. -/
theorem shimRun_count_zero (rid : String) :
    ∀ (evs : List ShimEvent) (pending : PendingMap),
      hasPending pending rid = false →
      (shimRun pending evs).countP (fun s => s.1 == rid) = 0 := by
  intro evs
  induction evs with
  | nil =>
    intro pending _
    simp [shimRun]
  | cons ev evs ih =>
    intro pending h
    rw [shimRun_cons, List.countP_append]
    have hrest := ih _ (shim_step_preserves_absent pending ev rid h)
    rcases h2 : (shimOnMessage pending ev).2 with _ | ⟨rid2, s⟩
    · simpa using hrest
    · have hc := shim_settle_characterize pending ev rid2 s h2
      have hne : (rid2 == rid) = false := by
        rw [beq_eq_false_iff_ne]
        intro hEq
        subst hEq
        rw [hc.1] at h
        cases h
      simp [List.countP_cons, hne, hrest]

/-- C5: for any request id and any sequence of inbound messages, at most one
settlement ever occurs; a matching `FETCH_RESPONSE` removes the pending
continuation and settles it (resolved for a status in [200,300), rejected
naming the status otherwise); and a `FETCH_RESPONSE` whose id has no pending
continuation is discarded with no effect. -/
theorem fetch_settlement_at_most_once :
    (∀ (pending : PendingMap) (evs : List ShimEvent) (rid : String),
        (shimRun pending evs).countP (fun s => s.1 == rid) ≤ 1) ∧
    (∀ (pending : PendingMap) (m : FetchResponseMsg) (k : Nat),
        pending.lookup m.requestId = some k →
        shimOnMessage pending ⟨true, .fetchResponse m⟩ =
          (pending.filter (fun e => e.1 != m.requestId),
           some (m.requestId,
             if 200 ≤ m.status ∧ m.status < 300 then
               .resolved m.content m.status m.headers
             else .rejected m.status))) ∧
    (∀ (pending : PendingMap) (m : FetchResponseMsg),
        pending.lookup m.requestId = none →
        shimOnMessage pending ⟨true, .fetchResponse m⟩ = (pending, none)) := by
  refine ⟨?_, ?_, ?_⟩
  · intro pending evs rid
    induction evs generalizing pending with
    | nil => simp [shimRun]
    | cons ev evs ih =>
      rw [shimRun_cons, List.countP_append]
      rcases h2 : (shimOnMessage pending ev).2 with _ | ⟨rid2, s⟩
      · simpa using ih _
      · have hc := shim_settle_characterize pending ev rid2 s h2
        by_cases hEq : rid2 = rid
        · subst hEq
          have hz := shimRun_count_zero rid2 evs (shimOnMessage pending ev).1
            (by rw [hc.2]; exact hasPending_filter_self pending rid2)
          simp [List.countP_cons, hz]
        · have hne : (rid2 == rid) = false := by
            rw [beq_eq_false_iff_ne]; exact hEq
          simp only [Option.toList_some, List.countP_cons, List.countP_nil,
            hne, cond_false]
          simpa using ih _
  · intro pending m k h
    exact shimOnMessage_hit pending m k h
  · intro pending m h
    simp [shimOnMessage, h]

/-- C5, witness at concrete inputs: a duplicate response settles only once,
a matching response settles-and-removes, an unmatched response is discarded. -/
theorem fetch_settlement_at_most_once_witness :
    (shimRun [("r1", 5)]
        [⟨true, .fetchResponse ⟨"r1", "ok", 200, []⟩⟩,
         ⟨true, .fetchResponse ⟨"r1", "ok", 200, []⟩⟩]).countP
      (fun s => s.1 == "r1") ≤ 1 ∧
    ([("r1", 5)] : PendingMap).lookup "r1" = some 5 ∧
    shimOnMessage [("r1", 5)] ⟨true, .fetchResponse ⟨"r1", "ok", 200, []⟩⟩ =
      ([], some ("r1", .resolved "ok" 200 [])) ∧
    ([] : PendingMap).lookup "r1" = none ∧
    shimOnMessage [] ⟨true, .fetchResponse ⟨"r1", "ok", 200, []⟩⟩ = ([], none) := by
  refine ⟨fetch_settlement_at_most_once.1 _ _ _, rfl, ?_, rfl,
    fetch_settlement_at_most_once.2.2 [] ⟨"r1", "ok", 200, []⟩ rfl⟩
  have h := fetch_settlement_at_most_once.2.1 [("r1", 5)] ⟨"r1", "ok", 200, []⟩ 5 rfl
  simpa using h

mutual

/-- A mutation targeting an id that occurs nowhere in the node finds nothing,
whatever the mutation function is. -/
theorem updFirst_none_of_findFirst_none (id : String) (f : HNode → HNode) :
    ∀ n : HNode, findFirst id n = none → updFirst id f n = none
  | .text _, _ => rfl
  | .elem tag eid style children, h => by
    unfold findFirst at h
    by_cases he : eid = some id
    · simp [he] at h
    · rw [if_neg he] at h
      unfold updFirst
      rw [updFirstList_none_of_findFirstList_none id f children h]
      simp [he]

/-- List version of `updFirst_none_of_findFirst_none`. -/
theorem updFirstList_none_of_findFirstList_none (id : String) (f : HNode → HNode) :
    ∀ ns : List HNode, findFirstList id ns = none → updFirstList id f ns = none
  | [], _ => rfl
  | n :: ns, h => by
    unfold findFirstList at h
    cases hn : findFirst id n with
    | some el => simp [hn] at h
    | none =>
      rw [hn] at h
      unfold updFirstList
      rw [updFirst_none_of_findFirst_none id f n hn,
          updFirstList_none_of_findFirstList_none id f ns (by simpa using h)]

end

mutual

/-- Conversely, a mutation that finds nothing proves the id occurs nowhere. -/
theorem findFirst_none_of_updFirst_none (id : String) (f : HNode → HNode) :
    ∀ n : HNode, updFirst id f n = none → findFirst id n = none
  | .text _, _ => rfl
  | .elem tag eid style children, h => by
    unfold updFirst at h
    by_cases he : eid = some id
    · simp [he] at h
    · rw [if_neg he] at h
      cases hcs : updFirstList id f children with
      | some cs => simp [hcs] at h
      | none =>
        unfold findFirst
        rw [if_neg he]
        exact findFirstList_none_of_updFirstList_none id f children hcs

/-- List version of `findFirst_none_of_updFirst_none`. -/
theorem findFirstList_none_of_updFirstList_none (id : String) (f : HNode → HNode) :
    ∀ ns : List HNode, updFirstList id f ns = none → findFirstList id ns = none
  | [], _ => rfl
  | n :: ns, h => by
    unfold updFirstList at h
    cases hn : updFirst id f n with
    | some m => simp [hn] at h
    | none =>
      rw [hn] at h
      cases hns : updFirstList id f ns with
      | some ms => simp [hns] at h
      | none =>
        unfold findFirstList
        rw [findFirst_none_of_updFirst_none id f n hn,
            findFirstList_none_of_updFirstList_none id f ns hns]

end

mutual

/-- When the mutation fixes the first matched element, the mutated tree is
the original tree (and the match is reported). -/
theorem updFirst_id_of_findFirst (id : String) (f : HNode → HNode) :
    ∀ (n : HNode) (el : HNode), findFirst id n = some el → f el = el →
      updFirst id f n = some n
  | .text _, el, h, _ => by simp [findFirst] at h
  | .elem tag eid style children, el, h, hfix => by
    unfold findFirst at h
    by_cases he : eid = some id
    · rw [if_pos he] at h
      have hel : el = .elem tag eid style children := by
        injection h with h1
        exact h1.symm
      subst hel
      unfold updFirst
      rw [if_pos he, hfix]
    · rw [if_neg he] at h
      unfold updFirst
      rw [if_neg he, updFirstList_id_of_findFirstList id f children el h hfix]

/-- List version of `updFirst_id_of_findFirst`. -/
theorem updFirstList_id_of_findFirstList (id : String) (f : HNode → HNode) :
    ∀ (ns : List HNode) (el : HNode), findFirstList id ns = some el → f el = el →
      updFirstList id f ns = some ns
  | [], el, h, _ => by simp [findFirstList] at h
  | n :: ns, el, h, hfix => by
    unfold findFirstList at h
    cases hn : findFirst id n with
    | some e2 =>
      rw [hn] at h
      have he2 : e2 = el := by simpa using h
      subst he2
      unfold updFirstList
      rw [updFirst_id_of_findFirst id f n e2 hn hfix]
    | none =>
      rw [hn] at h
      unfold updFirstList
      rw [updFirst_none_of_findFirst_none id f n hn,
          updFirstList_id_of_findFirstList id f ns el (by simpa using h) hfix]

end

mutual

/-- Composition of two find-and-mutate passes: when `g` preserves which
elements match the id, mutating with `g` and then with `f` equals mutating
once with `f ∘ g`, and the second pass finds the (still matching) element. -/
theorem updFirst_comp (id : String) (g f : HNode → HNode)
    (hg : ∀ x, isElemMatch id (g x) = isElemMatch id x) :
    ∀ (n n' : HNode), updFirst id g n = some n' →
      updFirst id f n' = updFirst id (fun m => f (g m)) n ∧
      (updFirst id (fun m => f (g m)) n).isSome = true
  | .text _, n', h => by simp [updFirst] at h
  | .elem tag eid style children, n', h => by
    by_cases he : eid = some id
    · have hgn : updFirst id g (.elem tag eid style children) =
          some (g (.elem tag eid style children)) := by
        unfold updFirst
        rw [if_pos he]
      rw [hgn] at h
      have hn' : n' = g (.elem tag eid style children) := by
        injection h with h1
        exact h1.symm
      subst hn'
      have hm : isElemMatch id (g (.elem tag eid style children)) = true := by
        rw [hg]
        simp [isElemMatch, he]
      cases hge : g (.elem tag eid style children) with
      | text s =>
        rw [hge] at hm
        simp [isElemMatch] at hm
      | elem t2 e2 s2 c2 =>
        rw [hge] at hm
        simp only [isElemMatch, beq_iff_eq] at hm
        constructor
        · have hL : updFirst id f (HNode.elem t2 e2 s2 c2) =
              some (f (HNode.elem t2 e2 s2 c2)) := by
            unfold updFirst
            rw [if_pos hm]
          have hR : updFirst id (fun m => f (g m)) (HNode.elem tag eid style children) =
              some (f (g (HNode.elem tag eid style children))) := by
            unfold updFirst
            rw [if_pos he]
          rw [hL, hR, hge]
        · unfold updFirst
          rw [if_pos he]
          rfl
    · have hgn : updFirst id g (.elem tag eid style children) =
          match updFirstList id g children with
          | some cs => some (.elem tag eid style cs)
          | none => none := by
        unfold updFirst
        rw [if_neg he]
      rw [hgn] at h
      cases hcs : updFirstList id g children with
      | none => simp [hcs] at h
      | some csG =>
        rw [hcs] at h
        have hn' : n' = .elem tag eid style csG := by simpa using h.symm
        subst hn'
        obtain ⟨hEq, hSome⟩ := updFirstList_comp id g f hg children csG hcs
        obtain ⟨k, hk⟩ := Option.isSome_iff_exists.mp hSome
        constructor
        · unfold updFirst
          rw [if_neg he, if_neg he, hEq]
        · unfold updFirst
          rw [if_neg he, hk]
          rfl

/-- List version of `updFirst_comp`. -/
theorem updFirstList_comp (id : String) (g f : HNode → HNode)
    (hg : ∀ x, isElemMatch id (g x) = isElemMatch id x) :
    ∀ (ns ns' : List HNode), updFirstList id g ns = some ns' →
      updFirstList id f ns' = updFirstList id (fun m => f (g m)) ns ∧
      (updFirstList id (fun m => f (g m)) ns).isSome = true
  | [], ns', h => by simp [updFirstList] at h
  | n :: ns, ns', h => by
    unfold updFirstList at h
    cases hn : updFirst id g n with
    | some m =>
      rw [hn] at h
      have hns' : ns' = m :: ns := by simpa using h.symm
      subst hns'
      obtain ⟨hEq, hSome⟩ := updFirst_comp id g f hg n m hn
      obtain ⟨k, hk⟩ := Option.isSome_iff_exists.mp hSome
      constructor
      · unfold updFirstList
        rw [hEq, hk]
      · unfold updFirstList
        rw [hk]
        rfl
    | none =>
      rw [hn] at h
      cases hns : updFirstList id g ns with
      | none => simp [hns] at h
      | some ms =>
        rw [hns] at h
        have hns' : ns' = n :: ms := by simpa using h.symm
        subst hns'
        obtain ⟨hEq, hSome⟩ := updFirstList_comp id g f hg ns ms hns
        obtain ⟨k, hk⟩ := Option.isSome_iff_exists.mp hSome
        have hfnone : findFirst id n = none :=
          findFirst_none_of_updFirst_none id g n hn
        have hfn : updFirst id f n = none :=
          updFirst_none_of_findFirst_none id f n hfnone
        have hfgn : updFirst id (fun m => f (g m)) n = none :=
          updFirst_none_of_findFirst_none id _ n hfnone
        constructor
        · unfold updFirstList
          rw [hfn, hfgn, hEq, hk]
        · unfold updFirstList
          rw [hfgn, hk]
          rfl

end

/-- Two read–modify–write passes on a head-less stored entry compose into
one, provided the first mutation preserves which elements match the id. -/
theorem updateElementInCode_comp (id : String) (g f : HNode → HNode)
    (hg : ∀ x, isElemMatch id (g x) = isElemMatch id x) (body : List HNode) :
    updateElementInCode (updateElementInCode ⟨[], body⟩ id g) id f =
      updateElementInCode ⟨[], body⟩ id (fun m => f (g m)) := by
  have h0 : ∀ (k : HNode → HNode), updFirstList id k ([] : List HNode) = none :=
    fun _ => rfl
  cases hb : updFirstList id g body with
  | none =>
    have hfind := findFirstList_none_of_updFirstList_none id g body hb
    have hf := updFirstList_none_of_findFirstList_none id f body hfind
    have hfg := updFirstList_none_of_findFirstList_none id (fun m => f (g m)) body hfind
    simp [updateElementInCode, h0, hb, hf, hfg]
  | some bodyG =>
    obtain ⟨hEq, hSome⟩ := updFirstList_comp id g f hg body bodyG hb
    obtain ⟨bodyFG, hFG⟩ := Option.isSome_iff_exists.mp hSome
    have hF : updFirstList id f bodyG = some bodyFG := by rw [hEq, hFG]
    simp [updateElementInCode, h0, hb, hF, hFG]

/-- C7: the commit is not frame-preserving. On a FileTable root entry shaped
like the shipped templates — a document with a nonempty head (title,
stylesheet link) and an editable paragraph in the body — committing new inner
content for the tagged element stores `body.innerHTML` only: the entire head
is discarded, so text outside the edited element is not preserved. -/
theorem commit_drops_document_head :
    updateCodeFromDOM
        ⟨[HNode.elem "title" none none [HNode.text "Vanilla JS Starter"],
          HNode.elem "link" none none []],
         [HNode.elem "p" (some "e1") none [HNode.text "old"]]⟩
        "e1" [HNode.text "new"] =
      ⟨[], [HNode.elem "p" (some "e1") none [HNode.text "new"]]⟩ ∧
    (updateCodeFromDOM
        ⟨[HNode.elem "title" none none [HNode.text "Vanilla JS Starter"],
          HNode.elem "link" none none []],
         [HNode.elem "p" (some "e1") none [HNode.text "old"]]⟩
        "e1" [HNode.text "new"]).headNodes.length = 0 ∧
    ([HNode.elem "title" none none [HNode.text "Vanilla JS Starter"],
      HNode.elem "link" none none []] : List HNode).length = 2 :=
  ⟨rfl, rfl, rfl⟩

/-- C9 counterexample, four failure modes of the claim at concrete inputs:
(a) an entry with a head: double toggle drops the head even though the
element itself is restored; (b) an element without a `style` attribute:
the first toggle materializes the attribute and the second leaves it behind
empty (`style=""` residue), so the entry is not restored; (c) a
non-canonical weight `700`: toggling maps it to `bold` and then to unset,
not back to `700`; (d) the same id in head and body: aligning twice differs
from aligning once, because the first pass mutates the head occurrence but
stores only the body. -/
theorem double_toggle_counterexamples :
    handleStyle (handleStyle
        ⟨[HNode.elem "title" none none [HNode.text "T"]],
         [HNode.elem "p" (some "a") (some ⟨"", "", ""⟩) []]⟩
        (some "a") "bold") (some "a") "bold" =
      ⟨[], [HNode.elem "p" (some "a") (some ⟨"", "", ""⟩) []]⟩ ∧
    handleStyle (handleStyle
        ⟨[HNode.elem "title" none none [HNode.text "T"]],
         [HNode.elem "p" (some "a") (some ⟨"", "", ""⟩) []]⟩
        (some "a") "bold") (some "a") "bold" ≠
      ⟨[HNode.elem "title" none none [HNode.text "T"]],
       [HNode.elem "p" (some "a") (some ⟨"", "", ""⟩) []]⟩ ∧
    handleStyle (handleStyle ⟨[], [HNode.elem "p" (some "b") none []]⟩
        (some "b") "bold") (some "b") "bold" =
      ⟨[], [HNode.elem "p" (some "b") (some ⟨"", "", ""⟩) []]⟩ ∧
    handleStyle (handleStyle ⟨[], [HNode.elem "p" (some "b") none []]⟩
        (some "b") "bold") (some "b") "bold" ≠
      ⟨[], [HNode.elem "p" (some "b") none []]⟩ ∧
    handleStyle (handleStyle
        ⟨[], [HNode.elem "p" (some "c") (some ⟨"", "700", ""⟩) []]⟩
        (some "c") "bold") (some "c") "bold" =
      ⟨[], [HNode.elem "p" (some "c") (some ⟨"", "", ""⟩) []]⟩ ∧
    handleStyle (handleStyle
        ⟨[], [HNode.elem "p" (some "c") (some ⟨"", "700", ""⟩) []]⟩
        (some "c") "bold") (some "c") "bold" ≠
      ⟨[], [HNode.elem "p" (some "c") (some ⟨"", "700", ""⟩) []]⟩ ∧
    handleAlign (handleAlign
        ⟨[HNode.elem "div" (some "d") none []],
         [HNode.elem "p" (some "d") none []]⟩
        (some "d") "center") (some "d") "center" ≠
      handleAlign
        ⟨[HNode.elem "div" (some "d") none []],
         [HNode.elem "p" (some "d") none []]⟩
        (some "d") "center" := by
  refine ⟨rfl, ?_, rfl, ?_, rfl, ?_, ?_⟩
  · intro h
    exact absurd (congrArg (fun d => d.headNodes.length) h) (by decide)
  · intro h
    exact absurd (congrArg (fun d => topStyles d.bodyNodes) h) (by decide)
  · intro h
    exact absurd (congrArg (fun d => topStyles d.bodyNodes) h) (by decide)
  · intro h
    exact absurd (congrArg (fun d => topStyles d.bodyNodes) h) (by decide)

/-- C9 amended: on a stored entry that is body content only (the form any
prior commit leaves behind), when the first element matched by the id —
anywhere in the tree — already carries a `style` attribute whose relevant
emphasis property is canonical (font-weight unset or `bold`, font-style
unset or `italic`), applying the same emphasis toggle twice restores the
entry exactly; and on any body-only entry, applying the same alignment twice
equals applying it once (alignment is set absolutely). Entries with a head,
elements without a `style` attribute, and non-canonical property values all
fail the original claim. -/
theorem emphasis_restore_and_alignment_idempotent :
    (∀ (body cs : List HNode) (id tag ta fw fsy : String),
        findFirstList id body =
          some (HNode.elem tag (some id) (some ⟨ta, fw, fsy⟩) cs) →
        fw = "" ∨ fw = "bold" →
        handleStyle (handleStyle ⟨[], body⟩ (some id) "bold") (some id) "bold" =
          ⟨[], body⟩) ∧
    (∀ (body cs : List HNode) (id tag ta fw fsy : String),
        findFirstList id body =
          some (HNode.elem tag (some id) (some ⟨ta, fw, fsy⟩) cs) →
        fsy = "" ∨ fsy = "italic" →
        handleStyle (handleStyle ⟨[], body⟩ (some id) "italic") (some id) "italic" =
          ⟨[], body⟩) ∧
    (∀ (body : List HNode) (id alignment : String),
        handleAlign (handleAlign ⟨[], body⟩ (some id) alignment) (some id) alignment =
          handleAlign ⟨[], body⟩ (some id) alignment) := by
  have hgB : ∀ (id : String) (x : HNode),
      isElemMatch id (applyStyleToggle "bold" x) = isElemMatch id x := by
    intro id x
    cases x with
    | text s => rfl
    | elem t e s c => simp [applyStyleToggle, isElemMatch]
  have hgI : ∀ (id : String) (x : HNode),
      isElemMatch id (applyStyleToggle "italic" x) = isElemMatch id x := by
    intro id x
    cases x with
    | text s => rfl
    | elem t e s c => simp [applyStyleToggle, isElemMatch]
  have hgA : ∀ (id a : String) (x : HNode),
      isElemMatch id (setAlign a x) = isElemMatch id x := by
    intro id a x
    cases x with
    | text s => rfl
    | elem t e s c => simp [setAlign, isElemMatch]
  refine ⟨?_, ?_, ?_⟩
  · intro body cs id tag ta fw fsy hfind hfw
    have hcomp := updateElementInCode_comp id (applyStyleToggle "bold")
      (applyStyleToggle "bold") (hgB id) body
    have hfix : applyStyleToggle "bold" (applyStyleToggle "bold"
        (HNode.elem tag (some id) (some ⟨ta, fw, fsy⟩) cs)) =
        HNode.elem tag (some id) (some ⟨ta, fw, fsy⟩) cs := by
      rcases hfw with h | h <;> subst h <;> simp [applyStyleToggle]
    have hupd := updFirstList_id_of_findFirstList id
      (fun m => applyStyleToggle "bold" (applyStyleToggle "bold" m)) body _ hfind hfix
    have hS : ∀ d, handleStyle d (some id) "bold" =
        updateElementInCode d id (applyStyleToggle "bold") := fun d => rfl
    rw [hS, hS, hcomp]
    have h0 : updFirstList id
        (fun m => applyStyleToggle "bold" (applyStyleToggle "bold" m))
        ([] : List HNode) = none := rfl
    simp [updateElementInCode, h0, hupd]
  · intro body cs id tag ta fw fsy hfind hfs
    have hcomp := updateElementInCode_comp id (applyStyleToggle "italic")
      (applyStyleToggle "italic") (hgI id) body
    have hfix : applyStyleToggle "italic" (applyStyleToggle "italic"
        (HNode.elem tag (some id) (some ⟨ta, fw, fsy⟩) cs)) =
        HNode.elem tag (some id) (some ⟨ta, fw, fsy⟩) cs := by
      rcases hfs with h | h <;> subst h <;> simp [applyStyleToggle]
    have hupd := updFirstList_id_of_findFirstList id
      (fun m => applyStyleToggle "italic" (applyStyleToggle "italic" m)) body _ hfind hfix
    have hS : ∀ d, handleStyle d (some id) "italic" =
        updateElementInCode d id (applyStyleToggle "italic") := fun d => rfl
    rw [hS, hS, hcomp]
    have h0 : updFirstList id
        (fun m => applyStyleToggle "italic" (applyStyleToggle "italic" m))
        ([] : List HNode) = none := rfl
    simp [updateElementInCode, h0, hupd]
  · intro body id alignment
    have hcomp := updateElementInCode_comp id (setAlign alignment)
      (setAlign alignment) (hgA id alignment) body
    have hA : ∀ d, handleAlign d (some id) alignment =
        updateElementInCode d id (setAlign alignment) := fun d => rfl
    simp only [hA]
    rw [hcomp]
    have hfun : (fun m => setAlign alignment (setAlign alignment m)) =
        setAlign alignment := by
      funext x
      cases x with
      | text s => rfl
      | elem t e s c =>
        cases s with
        | none => simp [setAlign]
        | some st =>
          cases st with
          | mk ta fw fsy => simp [setAlign]
    rw [hfun]

/-- C9 amended, witness at a concrete input with the matched element nested
below body top level. -/
theorem emphasis_restore_and_alignment_idempotent_witness :
    findFirstList "e" [HNode.text "x",
        HNode.elem "div" none none
          [HNode.elem "p" (some "e") (some ⟨"", "", ""⟩) []]] =
      some (HNode.elem "p" (some "e") (some ⟨"", "", ""⟩) []) ∧
    handleStyle (handleStyle ⟨[], [HNode.text "x",
        HNode.elem "div" none none
          [HNode.elem "p" (some "e") (some ⟨"", "", ""⟩) []]]⟩
        (some "e") "bold") (some "e") "bold" =
      ⟨[], [HNode.text "x",
        HNode.elem "div" none none
          [HNode.elem "p" (some "e") (some ⟨"", "", ""⟩) []]]⟩ ∧
    handleStyle (handleStyle ⟨[], [HNode.text "x",
        HNode.elem "div" none none
          [HNode.elem "p" (some "e") (some ⟨"", "", ""⟩) []]]⟩
        (some "e") "italic") (some "e") "italic" =
      ⟨[], [HNode.text "x",
        HNode.elem "div" none none
          [HNode.elem "p" (some "e") (some ⟨"", "", ""⟩) []]]⟩ ∧
    handleAlign (handleAlign ⟨[], [HNode.text "x",
        HNode.elem "div" none none
          [HNode.elem "p" (some "e") (some ⟨"", "", ""⟩) []]]⟩
        (some "e") "center") (some "e") "center" =
      handleAlign ⟨[], [HNode.text "x",
        HNode.elem "div" none none
          [HNode.elem "p" (some "e") (some ⟨"", "", ""⟩) []]]⟩
        (some "e") "center" := by
  refine ⟨rfl, ?_, ?_, ?_⟩
  · exact emphasis_restore_and_alignment_idempotent.1 _ [] "e" "p" "" "" "" rfl
      (Or.inl rfl)
  · exact emphasis_restore_and_alignment_idempotent.2.1 _ [] "e" "p" "" "" "" rfl
      (Or.inl rfl)
  · exact emphasis_restore_and_alignment_idempotent.2.2 _ "e" "center"
